import Mathlib

/-!
Verification of the NestboxAI developers repository.

The repository ships a documentation site.  Its only executable component in
`src/` is the `HomepageFeatures` React component; the Documents API
(collection/document store with similarity search and a chunking pipeline) is
documented in `docs/api-guides/documents.md` but implemented outside the
repository.  Following the specification, the store is modelled here as an
executable shallow embedding: a collection is a list of documents, the
embedding provider and the backend scoring function are explicit function
parameters, and every operation is a pure function on that state.
-/

namespace NestboxDocs

/-- Metadata: a mapping of string keys to string values, represented as an
association list (spec: "mapping of string keys to scalar/string values"). -/
abbrev Meta := List (String × String)

/-- Modelled from the spec: a Document of the DocumentStore (§3) — the store
itself is not implemented in the repository.  `id` is unique within its
collection, `content` is text, `embedding` is derived and not caller-writable. -/
structure Document where
  id : String
  content : String
  metadata : Meta
  embedding : List Int
deriving DecidableEq

/-- Modelled from the spec: a collection's durable document state.  The claims
under verification all act within a single collection, so the state is the
list of documents of that collection. -/
abbrev Collection := List Document

/-- Modelled from the spec: the error taxonomy of §7 restricted to the errors
the verified operations can raise. -/
inductive StoreError where
  | validationError
  | notFound
  | bulkDeleteNotConfirmed
  | fetchError (msg : String)
deriving DecidableEq

/-- Modelled from the spec: a metadata filter is a conjunction of equality
conditions (§3, glossary); a document matches when every key of the filter is
present in its metadata with exactly the required value. -/
def matchesFilter (filter : Meta) (md : Meta) : Bool :=
  filter.all (fun kv => md.lookup kv.1 == some kv.2)

/-- Modelled from the spec: `getDocument` (§4.2) — fails with `NotFoundError`
if the id is absent in the collection. -/
def getDocument (coll : Collection) (docId : String) : Except StoreError Document :=
  match coll.find? (fun d => d.id == docId) with
  | some d => Except.ok d
  | none => Except.error StoreError.notFound

/-- Iteration underlying `deleteDocumentsByMetadata`: walk the collection,
dropping matching documents and counting them. -/
def deleteByFilterGo (filter : Meta) : Collection → Nat × Collection
  | [] => (0, [])
  | d :: ds =>
    let r := deleteByFilterGo filter ds
    if matchesFilter filter d.metadata then (r.1 + 1, r.2) else (r.1, d :: r.2)

/-- Modelled from the spec: `deleteDocumentsByMetadata` (§4.2) — deletes every
document whose metadata satisfies all equality conditions of `filter` and
returns the count; the empty filter matches every document and is gated behind
the explicit `confirm` bulk-delete flag.  The resulting collection is returned
alongside the outcome (unchanged when the call errors). -/
def deleteDocumentsByMetadata (filter : Meta) (confirm : Bool) (coll : Collection) :
    (Except StoreError Nat) × Collection :=
  if filter.isEmpty && !confirm then
    (Except.error StoreError.bulkDeleteNotConfirmed, coll)
  else
    let r := deleteByFilterGo filter coll
    (Except.ok r.1, r.2)

/-- Modelled from the spec: a document submitted to `addDocuments` — the id is
optional (generated when absent), the embedding is computed by the store. -/
structure NewDoc where
  id : Option String
  content : String
  metadata : Meta
deriving DecidableEq

/-- The id actually used for the `i`-th submitted document: the caller's id
when supplied, otherwise one generated by the store's id supply. -/
def resolveId (genId : Nat → String) (i : Nat) (nd : NewDoc) : String :=
  match nd.id with
  | some s => s
  | none => genId i

/-- Upsert of one document: replace the entry with the same id in place, or
append at the end when the id is new (spec §3/§4.2: upsert-on-duplicate-id is
the store's canonical behavior). -/
def upsertDoc (d : Document) : Collection → Collection
  | [] => [d]
  | c :: cs => if c.id == d.id then d :: cs else c :: upsertDoc d cs

/-- Iteration underlying `addDocuments`: each submitted document is embedded
and upserted, and its id is reported. -/
def addDocumentsGo (embed : String → List Int) (genId : Nat → String) (i : Nat) :
    List NewDoc → Collection → List String × Collection
  | [], coll => ([], coll)
  | nd :: nds, coll =>
    let docId := resolveId genId i nd
    let doc : Document := ⟨docId, nd.content, nd.metadata, embed nd.content⟩
    let r := addDocumentsGo embed genId (i + 1) nds (upsertDoc doc coll)
    (docId :: r.1, r.2)

/-- Modelled from the spec: `addDocuments` (§4.2) — computes
`embedding = EmbeddingProvider.embed(content)` for each document, persists it,
generates ids where missing, and returns the list of ids. -/
def addDocuments (embed : String → List Int) (genId : Nat → String)
    (docs : List NewDoc) (coll : Collection) : List String × Collection :=
  addDocumentsGo embed genId 0 docs coll

/-- Modelled from the spec: one `updateDocuments` entry (§4.2) — identifies a
document by `id`; `content` present means re-embed and replace, `metadata`
present means replace the full metadata object. -/
structure DocUpdate where
  id : String
  content : Option String
  metadata : Option Meta
deriving DecidableEq

/-- Application of one update to the identified document: a present `content`
is re-embedded and replaces text and vector, a present `metadata` replaces the
whole metadata object, omitted fields leave the aspect untouched. -/
def applyUpdate (embed : String → List Int) (u : DocUpdate) (d : Document) : Document :=
  let cv : String × List Int :=
    match u.content with
    | some c => (c, embed c)
    | none => (d.content, d.embedding)
  let md : Meta :=
    match u.metadata with
    | some m => m
    | none => d.metadata
  ⟨d.id, cv.1, md, cv.2⟩

/-- Update of the first document carrying the update's id; `none` when no
document of the collection has that id. -/
def updateOne (embed : String → List Int) (u : DocUpdate) : Collection → Option Collection
  | [] => none
  | c :: cs =>
    if c.id == u.id then some (applyUpdate embed u c :: cs)
    else (updateOne embed u cs).map (fun cs' => c :: cs')

/-- Aggregate result of `updateDocuments`: succeeded ids and failed items with
per-item reasons (spec §7: the result always separates succeeded from failed). -/
structure UpdateResult where
  updatedIds : List String
  failed : List (String × String)
deriving DecidableEq

/-- Modelled from the spec: `updateDocuments` (§4.2) — applies each entry to
the document with its id; unknown ids are skipped and reported, not fatal to
the batch. -/
def updateDocuments (embed : String → List Int) :
    List DocUpdate → Collection → UpdateResult × Collection
  | [], coll => (⟨[], []⟩, coll)
  | u :: us, coll =>
    match updateOne embed u coll with
    | some coll1 =>
      let r := updateDocuments embed us coll1
      (⟨u.id :: r.1.updatedIds, r.1.failed⟩, r.2)
    | none =>
      let r := updateDocuments embed us coll
      (⟨r.1.updatedIds, (u.id, "not found") :: r.1.failed⟩, r.2)

/-- Modelled from the spec: the backend's scoring convention — it reports
either a similarity (higher is more similar) or a distance (lower is more
similar). -/
inductive Metric where
  | similarity
  | distance
deriving DecidableEq

/-- Normalization at the API boundary (§3): a single "higher is better" score
regardless of the backend convention — a distance is negated. -/
def normalizeScore : Metric → Int → Int
  | Metric.similarity, s => s
  | Metric.distance, d => -d

/-- "x is at least as similar as y" under the backend's raw convention. -/
def atLeastAsSimilar : Metric → Int → Int → Prop
  | Metric.similarity, x, y => y ≤ x
  | Metric.distance, x, y => x ≤ y

/-- Modelled from the spec: a SearchResult (§3) — ephemeral pair of the
document and its normalized similarity score. -/
structure SearchResult where
  document : Document
  score : Int
deriving DecidableEq

/-- Lexicographic "less or equal" on character lists, comparing code points;
the executable order used for the deterministic id tie-break. -/
def strLeb : List Char → List Char → Bool
  | [], _ => true
  | _ :: _, [] => false
  | a :: as, b :: bs =>
    if a.toNat < b.toNat then true
    else if b.toNat < a.toNat then false
    else strLeb as bs

/-- Ascending order on document ids (lexicographic on code points). -/
def idLe (a b : String) : Bool := strLeb a.toList b.toList

/-- Result ordering of §4.4: descending normalized score, ties broken by
document id ascending. -/
def resOrder (a b : SearchResult) : Prop :=
  b.score < a.score ∨ (a.score = b.score ∧ idLe a.document.id b.document.id = true)

instance : DecidableRel resOrder := fun a b =>
  inferInstanceAs (Decidable (b.score < a.score ∨
    (a.score = b.score ∧ idLe a.document.id b.document.id = true)))

/-- Modelled from the spec: a search query (§4.4) — text to be embedded, or a
pre-computed embedding vector. -/
inductive Query where
  | text (s : String)
  | vector (v : List Int)
deriving DecidableEq

/-- The query's embedding: text is embedded via the provider, a vector is used
as supplied. -/
def queryEmbedding (embed : String → List Int) : Query → List Int
  | Query.text s => embed s
  | Query.vector v => v

/-- Modelled from the spec: `search` (§4.4) — `topK` defaults to 5 and must be
a positive integer; the candidate set is restricted to documents matching the
metadata filter; candidates are scored by the backend, normalized, and sorted
by descending score with ties broken by id ascending; the top `k` are
returned.  An empty candidate set yields an empty success. -/
def search (embed : String → List Int) (rawScore : List Int → List Int → Int)
    (metric : Metric) (coll : Collection) (q : Query) (topK : Option Int)
    (filter : Meta) : Except StoreError (List SearchResult) :=
  let k := topK.getD 5
  if k ≤ 0 then Except.error StoreError.validationError
  else
    let qv := queryEmbedding embed q
    let candidates := coll.filter (fun d => matchesFilter filter d.metadata)
    let scored := candidates.map
      (fun d => SearchResult.mk d (normalizeScore metric (rawScore qv d.embedding)))
    Except.ok ((scored.insertionSort resOrder).take k.toNat)

/-- Modelled from the spec: chunking options of `chunkFileToCollection`
(§4.3); sizes are integers so that the `0 ≤ chunkOverlap < chunkSize`
validation is meaningful. -/
structure ChunkOptions where
  chunkSize : Int
  chunkOverlap : Int
  metadata : Meta
deriving DecidableEq

/-- Splitting extracted text into chunks of `size` characters starting every
`size - overlap` characters (overlapping by `overlap`). -/
def chunkText (size overlap : Nat) (s : String) : List String :=
  let cs := s.toList
  let step := size - overlap
  if step = 0 then [s]
  else
    (List.range ((cs.length + step - 1) / step)).map
      (fun i => String.mk ((cs.drop (i * step)).take size))

/-- Outcome of `chunkFileToCollection`: the message or error, whether the
resource was fetched, and the collection afterwards. -/
structure ChunkOutcome where
  result : Except StoreError String
  fetchAttempted : Bool
  finalColl : Collection

/-- Modelled from the spec: `chunkFileToCollection` (§4.3) — validates
`0 ≤ chunkOverlap < chunkSize` before any fetch, fetches and parses the
resource via `fetchParse`, splits the text into overlapping chunks, attaches
the caller metadata plus provenance fields, and feeds the chunks through
`addDocuments`.  A validation failure or a fetch/parse failure performs no
ingestion. -/
def chunkFileToCollection (embed : String → List Int) (genId : Nat → String)
    (fetchParse : String → Except String String) (ty url : String)
    (opts : ChunkOptions) (coll : Collection) : ChunkOutcome :=
  if !(0 ≤ opts.chunkOverlap && opts.chunkOverlap < opts.chunkSize) then
    ⟨Except.error StoreError.validationError, false, coll⟩
  else
    match fetchParse url with
    | Except.error e => ⟨Except.error (StoreError.fetchError e), true, coll⟩
    | Except.ok text =>
      let chunks := chunkText opts.chunkSize.toNat opts.chunkOverlap.toNat text
      let newDocs := chunks.enum.map (fun ci =>
        NewDoc.mk none ci.2
          (opts.metadata ++ [("sourceUrl", url), ("sourceType", ty), ("chunkIndex", toString ci.1)]))
      let r := addDocuments embed genId newDocs coll
      ⟨Except.ok "File chunked and added successfully", true, r.2⟩

/-- One entry of the homepage feature list
(`src/components/HomepageFeatures/index.tsx`, `FeatureItem`): title, the
required Svg asset (modelled by its module path), and description text. -/
structure FeatureItem where
  title : String
  svg : String
  description : String
deriving DecidableEq

/-- The constant `FeatureList` of `src/components/HomepageFeatures/index.tsx`,
with each JSX description fragment flattened to its text. -/
def FeatureList : List FeatureItem :=
  [⟨"Advanced Document Intelligence",
    "@site/static/img/undraw_docusaurus_mountain.svg",
    "Efficiently parse, catalog, tag, store, and manage large-scale document sets. Quickly query and retrieve information from complex documents, enhancing agent accuracy and reducing manual data handling"⟩,
   ⟨"Seamless Agent Integration",
    "@site/static/img/undraw_docusaurus_tree.svg",
    "Easily create, customize, and deploy AI agents capable of autonomously executing operations via seamless third-party integrations. Automate workflows across existing systems, boosting productivity and reducing human oversight"⟩,
   ⟨"Developer-First Experience",
    "@site/static/img/undraw_docusaurus_react.svg",
    "Designed with developers in mind: intuitive SDKs, comprehensive APIs, robust CLI tools, and thorough documentation. Accelerate development timelines and reduce complexity, ensuring rapid adoption and ease of use for technical teams."⟩]

/-- The rendered output of the `Feature` component: the title heading and the
description paragraph (the Svg is rendered alongside; we track its source). -/
structure FeatureBlock where
  svg : String
  title : String
  description : String
deriving DecidableEq

/-- The `Feature` component of `src/components/HomepageFeatures/index.tsx`:
renders one feature item's Svg, title, and description. -/
def Feature (f : FeatureItem) : FeatureBlock :=
  ⟨f.svg, f.title, f.description⟩

/-- The `HomepageFeatures` component of
`src/components/HomepageFeatures/index.tsx`: takes no props (modelled as
`Unit`) and renders one `Feature` block per entry of `FeatureList`, in order. -/
def HomepageFeatures : Unit → List FeatureBlock :=
  fun _ => FeatureList.map Feature

deriving instance DecidableEq for Except

theorem strLeb_total : ∀ (a b : List Char), strLeb a b = true ∨ strLeb b a = true := by
  intro a
  induction a with
  | nil => intro b; exact Or.inl rfl
  | cons x xs ih =>
    intro b
    cases b with
    | nil => exact Or.inr rfl
    | cons y ys =>
      by_cases h1 : x.toNat < y.toNat
      · left
        simp [strLeb, h1]
      · by_cases h2 : y.toNat < x.toNat
        · right
          simp [strLeb, h2]
        · rcases ih ys with h | h
          · left
            simp [strLeb, h1, h2, h]
          · right
            simp [strLeb, h1, h2, h]

theorem strLeb_trans : ∀ (a b c : List Char), strLeb a b = true → strLeb b c = true →
    strLeb a c = true := by
  intro a
  induction a with
  | nil => intro b c _ _; rfl
  | cons x xs ih =>
    intro b c hab hbc
    cases b with
    | nil => simp [strLeb] at hab
    | cons y ys =>
      cases c with
      | nil => simp [strLeb] at hbc
      | cons z zs =>
        by_cases h1 : x.toNat < y.toNat <;> by_cases h2 : y.toNat < z.toNat
        · simp [strLeb, show x.toNat < z.toNat by omega]
        · by_cases h3 : z.toNat < y.toNat
          · simp [strLeb, h2, h3] at hbc
          · have hyz : y.toNat = z.toNat := by omega
            simp [strLeb, show x.toNat < z.toNat by omega]
        · by_cases h4 : y.toNat < x.toNat
          · simp [strLeb, h1, h4] at hab
          · have hxy : x.toNat = y.toNat := by omega
            simp [strLeb, show x.toNat < z.toNat by omega]
        · by_cases h4 : y.toNat < x.toNat
          · simp [strLeb, h1, h4] at hab
          · by_cases h3 : z.toNat < y.toNat
            · simp [strLeb, h2, h3] at hbc
            · have hxy : x.toNat = y.toNat := by omega
              have hyz : y.toNat = z.toNat := by omega
              simp only [strLeb, h1, h2, if_false] at hab hbc
              simp only [if_neg (show ¬ x.toNat < z.toNat by omega),
                if_neg (show ¬ z.toNat < x.toNat by omega), strLeb]
              rw [if_neg h4] at hab
              rw [if_neg h3] at hbc
              exact ih ys zs hab hbc

instance : IsTotal SearchResult resOrder := by
  constructor
  intro a b
  rcases lt_trichotomy a.score b.score with h | h | h
  · exact Or.inr (Or.inl h)
  · rcases strLeb_total a.document.id.toList b.document.id.toList with h2 | h2
    · exact Or.inl (Or.inr ⟨h, h2⟩)
    · exact Or.inr (Or.inr ⟨h.symm, h2⟩)
  · exact Or.inl (Or.inl h)

instance : IsTrans SearchResult resOrder := by
  constructor
  intro a b c hab hbc
  rcases hab with h1 | ⟨h1, h1'⟩ <;> rcases hbc with h2 | ⟨h2, h2'⟩
  · exact Or.inl (h2.trans h1)
  · exact Or.inl (h2 ▸ h1)
  · exact Or.inl (by rw [h1]; exact h2)
  · exact Or.inr ⟨h1.trans h2, strLeb_trans _ _ _ h1' h2'⟩


theorem matchesFilter_nil (md : Meta) : matchesFilter [] md = true := rfl

theorem deleteByFilterGo_eq (filter : Meta) (coll : Collection) :
    deleteByFilterGo filter coll =
      ((coll.filter (fun d => matchesFilter filter d.metadata)).length,
       coll.filter (fun d => !matchesFilter filter d.metadata)) := by
  induction coll with
  | nil => rfl
  | cons d ds ih =>
    by_cases h : matchesFilter filter d.metadata = true
    · simp [deleteByFilterGo, List.filter_cons, h, ih]
    · simp [deleteByFilterGo, List.filter_cons, h, ih, Bool.eq_false_iff.mpr h]

/-- Claim C2: an empty filter matches every document; without the explicit
bulk-delete confirmation flag, `deleteDocumentsByMetadata` with an empty
filter deletes nothing and errors; with the flag it deletes every document of
the collection. -/
theorem emptyFilter_bulk_delete_gated :
    (∀ d : Document, matchesFilter [] d.metadata = true) ∧
    (∀ coll : Collection,
      deleteDocumentsByMetadata [] false coll =
        (Except.error StoreError.bulkDeleteNotConfirmed, coll)) ∧
    (∀ coll : Collection,
      deleteDocumentsByMetadata [] true coll = (Except.ok coll.length, [])) := by
  refine ⟨fun d => rfl, fun coll => rfl, fun coll => ?_⟩
  have hgo : deleteByFilterGo [] coll = (coll.length, []) := by
    induction coll with
    | nil => rfl
    | cons d ds ih => simp [deleteByFilterGo, matchesFilter_nil, ih]
  simp only [deleteDocumentsByMetadata, List.isEmpty_nil, Bool.not_true, Bool.and_false,
    Bool.false_eq_true, if_false, hgo]

/-- Claim C7: with a non-empty filter, `deleteDocumentsByMetadata` deletes
exactly the documents whose metadata satisfies all equality conditions of the
filter (the count is the size of that subset) and keeps every other document
unchanged and in order. -/
theorem deleteDocumentsByMetadata_exact_subset (filter : Meta) (confirm : Bool)
    (coll : Collection) (hne : filter ≠ []) :
    deleteDocumentsByMetadata filter confirm coll =
      (Except.ok (coll.filter (fun d => matchesFilter filter d.metadata)).length,
       coll.filter (fun d => !matchesFilter filter d.metadata)) ∧
    (∀ d ∈ coll, matchesFilter filter d.metadata = false →
      d ∈ (deleteDocumentsByMetadata filter confirm coll).2) ∧
    (∀ d ∈ (deleteDocumentsByMetadata filter confirm coll).2,
      d ∈ coll ∧ matchesFilter filter d.metadata = false) := by
  have hempty : filter.isEmpty = false := by
    cases filter with
    | nil => exact absurd rfl hne
    | cons a l => rfl
  have heq : deleteDocumentsByMetadata filter confirm coll =
      (Except.ok (coll.filter (fun d => matchesFilter filter d.metadata)).length,
       coll.filter (fun d => !matchesFilter filter d.metadata)) := by
    simp [deleteDocumentsByMetadata, hempty, deleteByFilterGo_eq]
  refine ⟨heq, ?_, ?_⟩
  · intro d hd hmf
    rw [heq]
    simp [List.mem_filter, hd, hmf]
  · intro d hd
    rw [heq, List.mem_filter] at hd
    exact ⟨hd.1, by simpa [Bool.not_eq_true'] using hd.2⟩

theorem deleteDocumentsByMetadata_exact_subset_witness :
    (deleteDocumentsByMetadata [("category", "pet")] false
        [⟨"doc1", "Cats are popular pets.", [("category", "animal")], [1, 2]⟩,
         ⟨"doc2", "Dogs are loyal pets.", [("category", "pet")], [3, 4]⟩]).1 =
      Except.ok 1 ∧
    (deleteDocumentsByMetadata [("category", "pet")] false
        [⟨"doc1", "Cats are popular pets.", [("category", "animal")], [1, 2]⟩,
         ⟨"doc2", "Dogs are loyal pets.", [("category", "pet")], [3, 4]⟩]).2 =
      [⟨"doc1", "Cats are popular pets.", [("category", "animal")], [1, 2]⟩] := by
  have h := deleteDocumentsByMetadata_exact_subset [("category", "pet")] false
    [⟨"doc1", "Cats are popular pets.", [("category", "animal")], [1, 2]⟩,
     ⟨"doc2", "Dogs are loyal pets.", [("category", "pet")], [3, 4]⟩] (by decide)
  exact ⟨by rw [h.1]; decide, by rw [h.1]; decide⟩

theorem upsertDoc_map_id_of_mem (d : Document) (l : Collection)
    (h : d.id ∈ l.map Document.id) :
    (upsertDoc d l).map Document.id = l.map Document.id := by
  induction l with
  | nil => simp at h
  | cons c cs ih =>
    by_cases hc : c.id = d.id
    · simp [upsertDoc, hc]
    · have hbeq : (c.id == d.id) = false := by simp [hc]
      have hmem : d.id ∈ cs.map Document.id := by
        rcases List.mem_map.mp h with ⟨x, hx, hxid⟩
        rcases List.mem_cons.mp hx with hxc | hxcs
        · exact absurd (hxc ▸ hxid) hc
        · exact List.mem_map.mpr ⟨x, hxcs, hxid⟩
      simp [upsertDoc, hbeq, ih hmem]

theorem upsertDoc_getDocument (d : Document) (l : Collection) :
    getDocument (upsertDoc d l) d.id = Except.ok d := by
  induction l with
  | nil => simp [upsertDoc, getDocument, List.find?]
  | cons c cs ih =>
    by_cases hc : c.id = d.id
    · simp [upsertDoc, hc, getDocument, List.find?]
    · have hbeq : (c.id == d.id) = false := by simp [hc]
      simpa [upsertDoc, hbeq, getDocument, List.find?] using ih

theorem upsertDoc_mem_of_ne (d x : Document) (l : Collection)
    (hx : x ∈ l) (hne : x.id ≠ d.id) : x ∈ upsertDoc d l := by
  induction l with
  | nil => simp at hx
  | cons c cs ih =>
    rcases List.mem_cons.mp hx with hxc | hxcs
    · subst hxc
      have hbeq : (x.id == d.id) = false := by simp [hne]
      simp [upsertDoc, hbeq]
    · by_cases hc : c.id = d.id
      · simp [upsertDoc, hc]
        exact Or.inr hxcs
      · have hbeq : (c.id == d.id) = false := by simp [hc]
        have hmem : x ∈ upsertDoc d cs := ih hxcs
        simp [upsertDoc, hbeq, hmem]

/-- Claim C1: re-adding a document whose id already exists in the collection
is an upsert — the stored content, metadata, and embedding are replaced, the
call succeeds reporting the id, the collection's id sequence (hence its size)
is unchanged, uniqueness is preserved (no duplicate entry), and every other
document is untouched. -/
theorem addDocuments_upsert_on_existing_id (embed : String → List Int)
    (genId : Nat → String) (i c : String) (m : Meta) (coll : Collection)
    (hmem : i ∈ coll.map Document.id) :
    (addDocuments embed genId [⟨some i, c, m⟩] coll).1 = [i] ∧
    getDocument (addDocuments embed genId [⟨some i, c, m⟩] coll).2 i =
      Except.ok ⟨i, c, m, embed c⟩ ∧
    (addDocuments embed genId [⟨some i, c, m⟩] coll).2.map Document.id =
      coll.map Document.id ∧
    ((coll.map Document.id).Nodup →
      ((addDocuments embed genId [⟨some i, c, m⟩] coll).2.map Document.id).Nodup) ∧
    (∀ d ∈ coll, d.id ≠ i →
      d ∈ (addDocuments embed genId [⟨some i, c, m⟩] coll).2) := by
  have h2 : (addDocuments embed genId [⟨some i, c, m⟩] coll).2 =
      upsertDoc ⟨i, c, m, embed c⟩ coll := rfl
  have hmap := upsertDoc_map_id_of_mem ⟨i, c, m, embed c⟩ coll hmem
  refine ⟨rfl, ?_, ?_, ?_, ?_⟩
  · rw [h2]
    exact upsertDoc_getDocument ⟨i, c, m, embed c⟩ coll
  · rw [h2]
    exact hmap
  · intro hnd
    rw [h2, hmap]
    exact hnd
  · intro d hd hne
    rw [h2]
    exact upsertDoc_mem_of_ne ⟨i, c, m, embed c⟩ d coll hd hne

theorem addDocuments_upsert_on_existing_id_witness :
    getDocument
      (addDocuments (fun s => [(s.length : Int)]) (fun n => toString n)
        [⟨some "doc1", "new text", [("k", "v2")]⟩]
        [⟨"doc1", "old text", [("k", "v1")], [8]⟩,
         ⟨"doc2", "other", [], [5]⟩]).2 "doc1" =
      Except.ok ⟨"doc1", "new text", [("k", "v2")], [8]⟩ ∧
    (addDocuments (fun s => [(s.length : Int)]) (fun n => toString n)
        [⟨some "doc1", "new text", [("k", "v2")]⟩]
        [⟨"doc1", "old text", [("k", "v1")], [8]⟩,
         ⟨"doc2", "other", [], [5]⟩]).2.map Document.id = ["doc1", "doc2"] := by
  have h := addDocuments_upsert_on_existing_id (fun s => [(s.length : Int)])
    (fun n => toString n) "doc1" "new text" [("k", "v2")]
    [⟨"doc1", "old text", [("k", "v1")], [8]⟩, ⟨"doc2", "other", [], [5]⟩]
    (by decide)
  exact ⟨h.2.1, by rw [h.2.2.1]; decide⟩

theorem applyUpdate_id (embed : String → List Int) (u : DocUpdate) (d : Document) :
    (applyUpdate embed u d).id = d.id := rfl

theorem getDocument_ok_id (coll : Collection) (i : String) (d0 : Document)
    (h : getDocument coll i = Except.ok d0) : d0.id = i := by
  unfold getDocument at h
  cases hf : coll.find? (fun d => d.id == i) with
  | none => rw [hf] at h; cases h
  | some d =>
    rw [hf] at h
    have hd : d = d0 := by cases h; rfl
    have := List.find?_some hf
    subst hd
    simpa using this

theorem updateOne_spec (embed : String → List Int) (u : DocUpdate) (coll : Collection)
    (d0 : Document) (h : getDocument coll u.id = Except.ok d0) :
    ∃ coll', updateOne embed u coll = some coll' ∧
      getDocument coll' u.id = Except.ok (applyUpdate embed u d0) ∧
      (∀ d ∈ coll, d.id ≠ u.id → d ∈ coll') := by
  induction coll with
  | nil => simp [getDocument, List.find?] at h
  | cons c cs ih =>
    by_cases hc : c.id = u.id
    · have hbeq : (c.id == u.id) = true := by simp [hc]
      have hfind : List.find? (fun d => d.id == u.id) (c :: cs) = some c :=
        List.find?_cons_of_pos _ hbeq
      have hd0 : c = d0 := by
        unfold getDocument at h
        rw [hfind] at h
        cases h; rfl
      refine ⟨applyUpdate embed u c :: cs, ?_, ?_, ?_⟩
      · simp [updateOne, hbeq]
      · have hfind2 : List.find? (fun d => d.id == u.id) (applyUpdate embed u c :: cs) =
            some (applyUpdate embed u c) :=
          List.find?_cons_of_pos _ (by simpa [applyUpdate_id] using hbeq)
        unfold getDocument
        rw [hfind2, hd0]
      · intro d hd hne
        rcases List.mem_cons.mp hd with hdc | hdcs
        · exact absurd (hdc ▸ hc) hne
        · exact List.mem_cons.mpr (Or.inr hdcs)
    · have hbeq : (c.id == u.id) = false := by simp [hc]
      have htl : getDocument cs u.id = Except.ok d0 := by
        unfold getDocument at h ⊢
        rwa [List.find?_cons_of_neg _ (by simp [hc])] at h
      obtain ⟨cs', hsome, hget, hframe⟩ := ih htl
      refine ⟨c :: cs', ?_, ?_, ?_⟩
      · simp [updateOne, hbeq, hsome]
      · unfold getDocument at hget ⊢
        rwa [List.find?_cons_of_neg _ (by simp [hc])]
      · intro d hd hne
        rcases List.mem_cons.mp hd with hdc | hdcs
        · exact List.mem_cons.mpr (Or.inl hdc)
        · exact List.mem_cons.mpr (Or.inr (hframe d hdcs hne))

theorem updateOne_none_iff (embed : String → List Int) (u : DocUpdate)
    (coll : Collection) :
    updateOne embed u coll = none ↔ u.id ∉ coll.map Document.id := by
  induction coll with
  | nil => simp [updateOne]
  | cons c cs ih =>
    by_cases hc : c.id = u.id
    · simp [updateOne, hc]
    · have hbeq : (c.id == u.id) = false := by simp [hc]
      have hne : ¬ u.id = c.id := fun h => hc h.symm
      simp [updateOne, hbeq, Option.map_eq_none', ih, hne]

theorem updateOne_map_id (embed : String → List Int) (u : DocUpdate) :
    ∀ (coll coll' : Collection), updateOne embed u coll = some coll' →
      coll'.map Document.id = coll.map Document.id := by
  intro coll
  induction coll with
  | nil => intro coll' h; simp [updateOne] at h
  | cons c cs ih =>
    intro coll' h
    by_cases hc : c.id = u.id
    · have hbeq : (c.id == u.id) = true := by simp [hc]
      simp only [updateOne, hbeq, if_true] at h
      cases h
      simp [applyUpdate_id]
    · have hbeq : (c.id == u.id) = false := by simp [hc]
      simp only [updateOne, hbeq, Bool.false_eq_true, if_false, Option.map_eq_some'] at h
      obtain ⟨cs', hcs', rfl⟩ := h
      simp [ih cs' hcs']

/-- Claim C8: an `updateDocuments` entry providing only `metadata` leaves the
document's content and embedding unchanged (verifiable by re-fetching the
document), replaces the stored metadata object wholesale, reports the entry
as succeeded, and leaves every other document untouched. -/
theorem updateDocuments_metadata_only_preserves_content (embed : String → List Int)
    (i : String) (m : Meta) (coll : Collection) (d0 : Document)
    (h : getDocument coll i = Except.ok d0) :
    (updateDocuments embed [⟨i, none, some m⟩] coll).1 = ⟨[i], []⟩ ∧
    getDocument (updateDocuments embed [⟨i, none, some m⟩] coll).2 i =
      Except.ok ⟨i, d0.content, m, d0.embedding⟩ ∧
    (∀ d ∈ coll, d.id ≠ i →
      d ∈ (updateDocuments embed [⟨i, none, some m⟩] coll).2) := by
  obtain ⟨coll', hsome, hget, hframe⟩ :=
    updateOne_spec embed ⟨i, none, some m⟩ coll d0 h
  have happ : applyUpdate embed ⟨i, none, some m⟩ d0 =
      ⟨d0.id, d0.content, m, d0.embedding⟩ := rfl
  have hid : d0.id = i := getDocument_ok_id coll i d0 h
  have heq : updateDocuments embed [⟨i, none, some m⟩] coll = (⟨[i], []⟩, coll') := by
    simp [updateDocuments, hsome]
  refine ⟨by rw [heq], ?_, ?_⟩
  · rw [heq]
    rw [happ, hid] at hget
    exact hget
  · intro d hd hne
    rw [heq]
    exact hframe d hd hne

theorem updateDocuments_metadata_only_preserves_content_witness :
    getDocument
      (updateDocuments (fun s => [(s.length : Int)])
        [⟨"doc2", none, some [("category", "pet")]⟩]
        [⟨"doc1", "Cats are popular pets.", [("category", "animal")], [1]⟩,
         ⟨"doc2", "Dogs are loyal pets.", [("category", "animal")], [2]⟩]).2 "doc2" =
      Except.ok ⟨"doc2", "Dogs are loyal pets.", [("category", "pet")], [2]⟩ := by
  have h := updateDocuments_metadata_only_preserves_content (fun s => [(s.length : Int)])
    "doc2" [("category", "pet")]
    [⟨"doc1", "Cats are popular pets.", [("category", "animal")], [1]⟩,
     ⟨"doc2", "Dogs are loyal pets.", [("category", "animal")], [2]⟩]
    ⟨"doc2", "Dogs are loyal pets.", [("category", "animal")], [2]⟩ (by decide)
  exact h.2.1

/-- Claim C9: an `updateDocuments` batch never aborts on unknown ids — each
entry whose id is absent is skipped (the stored ids are unchanged) and
reported among the failed items with a reason, each entry whose id exists is
reported among the succeeded ids, and the two reported lists exactly cover
the batch. -/
theorem updateDocuments_skips_unknown_ids (embed : String → List Int)
    (us : List DocUpdate) (coll : Collection) :
    (updateDocuments embed us coll).2.map Document.id = coll.map Document.id ∧
    (∀ u ∈ us, u.id ∈ coll.map Document.id →
      u.id ∈ (updateDocuments embed us coll).1.updatedIds) ∧
    (∀ u ∈ us, u.id ∉ coll.map Document.id →
      (u.id, "not found") ∈ (updateDocuments embed us coll).1.failed) ∧
    (updateDocuments embed us coll).1.updatedIds.length
      + (updateDocuments embed us coll).1.failed.length = us.length ∧
    (∀ j ∈ (updateDocuments embed us coll).1.updatedIds, j ∈ coll.map Document.id) ∧
    (∀ p ∈ (updateDocuments embed us coll).1.failed, p.1 ∉ coll.map Document.id) := by
  induction us generalizing coll with
  | nil => simp [updateDocuments]
  | cons u us ih =>
    cases hupd : updateOne embed u coll with
    | some coll1 =>
      have hid : u.id ∈ coll.map Document.id := by
        by_contra hnot
        have := (updateOne_none_iff embed u coll).mpr hnot
        rw [hupd] at this
        cases this
      have hmap1 := updateOne_map_id embed u coll coll1 hupd
      obtain ⟨ihmap, ihupd, ihfail, ihlen, ihupdmem, ihfailmem⟩ := ih coll1
      have heq : updateDocuments embed (u :: us) coll =
          (⟨u.id :: (updateDocuments embed us coll1).1.updatedIds,
            (updateDocuments embed us coll1).1.failed⟩,
           (updateDocuments embed us coll1).2) := by
        simp [updateDocuments, hupd]
      rw [heq]
      refine ⟨by rw [ihmap, hmap1], ?_, ?_, ?_, ?_, ?_⟩
      · intro u' hu' hmem
        rcases List.mem_cons.mp hu' with rfl | hu'tl
        · exact List.mem_cons.mpr (Or.inl rfl)
        · exact List.mem_cons.mpr (Or.inr (ihupd u' hu'tl (by rwa [hmap1])))
      · intro u' hu' hmem
        rcases List.mem_cons.mp hu' with rfl | hu'tl
        · exact absurd hid hmem
        · exact ihfail u' hu'tl (by rwa [hmap1])
      · simpa [Nat.succ_add] using ihlen
      · intro j hj
        rcases List.mem_cons.mp hj with rfl | hjtl
        · exact hid
        · rw [← hmap1]; exact ihupdmem j hjtl
      · intro p hp
        rw [← hmap1]; exact ihfailmem p hp
    | none =>
      have hid : u.id ∉ coll.map Document.id := (updateOne_none_iff embed u coll).mp hupd
      obtain ⟨ihmap, ihupd, ihfail, ihlen, ihupdmem, ihfailmem⟩ := ih coll
      have heq : updateDocuments embed (u :: us) coll =
          (⟨(updateDocuments embed us coll).1.updatedIds,
            (u.id, "not found") :: (updateDocuments embed us coll).1.failed⟩,
           (updateDocuments embed us coll).2) := by
        simp [updateDocuments, hupd]
      rw [heq]
      refine ⟨ihmap, ?_, ?_, ?_, ?_, ?_⟩
      · intro u' hu' hmem
        rcases List.mem_cons.mp hu' with rfl | hu'tl
        · exact absurd hmem hid
        · exact ihupd u' hu'tl hmem
      · intro u' hu' hmem
        rcases List.mem_cons.mp hu' with rfl | hu'tl
        · exact List.mem_cons.mpr (Or.inl rfl)
        · exact List.mem_cons.mpr (Or.inr (ihfail u' hu'tl hmem))
      · simp only [List.length_cons]
        omega
      · exact ihupdmem
      · intro p hp
        rcases List.mem_cons.mp hp with rfl | hptl
        · exact hid
        · exact ihfailmem p hptl

theorem updateDocuments_skips_unknown_ids_witness :
    (updateDocuments (fun s => [(s.length : Int)])
      [⟨"doc1", some "edited", none⟩, ⟨"ghost", none, some []⟩]
      [⟨"doc1", "text", [], [4]⟩]).1.updatedIds = ["doc1"] ∧
    (updateDocuments (fun s => [(s.length : Int)])
      [⟨"doc1", some "edited", none⟩, ⟨"ghost", none, some []⟩]
      [⟨"doc1", "text", [], [4]⟩]).1.failed = [("ghost", "not found")] ∧
    (updateDocuments (fun s => [(s.length : Int)])
      [⟨"doc1", some "edited", none⟩, ⟨"ghost", none, some []⟩]
      [⟨"doc1", "text", [], [4]⟩]).2.map Document.id = ["doc1"] := by
  have h := updateDocuments_skips_unknown_ids (fun s => [(s.length : Int)])
    [⟨"doc1", some "edited", none⟩, ⟨"ghost", none, some []⟩]
    [⟨"doc1", "text", [], [4]⟩]
  refine ⟨by decide, by decide, by rw [h.1]; decide⟩

theorem normalizeScore_mono (metric : Metric) (x y : Int) :
    normalizeScore metric y ≤ normalizeScore metric x ↔ atLeastAsSimilar metric x y := by
  cases metric <;> simp [normalizeScore, atLeastAsSimilar]

theorem search_eq_of_pos (embed : String → List Int)
    (rawScore : List Int → List Int → Int) (metric : Metric) (coll : Collection)
    (q : Query) (topK : Option Int) (filter : Meta) (h : 0 < topK.getD 5) :
    search embed rawScore metric coll q topK filter =
      Except.ok ((((coll.filter (fun d => matchesFilter filter d.metadata)).map
        (fun d => SearchResult.mk d
          (normalizeScore metric (rawScore (queryEmbedding embed q) d.embedding)))).insertionSort
        resOrder).take (topK.getD 5).toNat) := by
  simp only [search]
  rw [if_neg (by omega)]

/-- Claim C4: every successful `search` returns results sorted by
non-increasing normalized score with ties broken by document id ascending
(strictly, whenever the collection's ids are unique), and the normalization
makes the score order agree with "more similar" regardless of whether the
backend reports a similarity or a distance. -/
theorem search_sorted_normalized (embed : String → List Int)
    (rawScore : List Int → List Int → Int) (metric : Metric) (coll : Collection)
    (q : Query) (topK : Option Int) (filter : Meta) (rs : List SearchResult)
    (hok : search embed rawScore metric coll q topK filter = Except.ok rs) :
    rs.Pairwise resOrder ∧
    ((coll.map Document.id).Nodup →
      rs.Pairwise (fun a b => b.score < a.score ∨
        (a.score = b.score ∧ idLe a.document.id b.document.id = true ∧
          a.document.id ≠ b.document.id))) ∧
    (∀ x y : Int, normalizeScore metric y ≤ normalizeScore metric x ↔
      atLeastAsSimilar metric x y) := by
  by_cases hk : topK.getD 5 ≤ 0
  · simp only [search] at hok
    rw [if_pos hk] at hok
    exact Except.noConfusion hok
  · rw [search_eq_of_pos embed rawScore metric coll q topK filter (by omega)] at hok
    have hrs := (Except.ok.inj hok).symm
    subst hrs
    set scored := (coll.filter (fun d => matchesFilter filter d.metadata)).map
      (fun d => SearchResult.mk d
        (normalizeScore metric (rawScore (queryEmbedding embed q) d.embedding))) with hscored
    have hsorted : (scored.insertionSort resOrder).Pairwise resOrder :=
      List.sorted_insertionSort resOrder scored
    have hpair : ((scored.insertionSort resOrder).take (topK.getD 5).toNat).Pairwise resOrder :=
      hsorted.sublist (List.take_sublist _ _)
    refine ⟨hpair, ?_, ?_⟩
    · intro hnd
      have hcand : ((coll.filter (fun d => matchesFilter filter d.metadata)).map
          Document.id).Nodup :=
        hnd.sublist ((List.filter_sublist coll).map Document.id)
      have hscn : (scored.map (fun r => r.document.id)).Nodup := by
        rw [hscored, List.map_map]
        exact hcand
      have hsortn : ((scored.insertionSort resOrder).map (fun r => r.document.id)).Nodup :=
        (((List.perm_insertionSort resOrder scored).map
          (fun r => r.document.id)).nodup_iff).mpr hscn
      have htaken : (((scored.insertionSort resOrder).take (topK.getD 5).toNat).map
          (fun r => r.document.id)).Nodup :=
        hsortn.sublist ((List.take_sublist _ _).map _)
      have hne : ((scored.insertionSort resOrder).take (topK.getD 5).toNat).Pairwise
          (fun a b => a.document.id ≠ b.document.id) :=
        List.pairwise_map.mp htaken
      refine (hpair.and hne).imp ?_
      intro a b hab
      rcases hab with ⟨hlt | ⟨heqs, hle⟩, hid⟩
      · exact Or.inl hlt
      · exact Or.inr ⟨heqs, hle, hid⟩
    · exact normalizeScore_mono metric

theorem search_sorted_normalized_witness :
    ([⟨⟨"b", "dog text", [], [3]⟩, -3⟩, ⟨⟨"c", "cow text", [], [3]⟩, -3⟩,
      ⟨⟨"a", "cat text", [], [5]⟩, -5⟩] : List SearchResult).Pairwise
      (fun a b => b.score < a.score ∨
        (a.score = b.score ∧ idLe a.document.id b.document.id = true ∧
          a.document.id ≠ b.document.id)) := by
  have h := search_sorted_normalized (fun _ => []) (fun _ v => v.headD 0)
    Metric.distance
    [⟨"a", "cat text", [], [5]⟩, ⟨"b", "dog text", [], [3]⟩, ⟨"c", "cow text", [], [3]⟩]
    (Query.vector []) none []
    [⟨⟨"b", "dog text", [], [3]⟩, -3⟩, ⟨⟨"c", "cow text", [], [3]⟩, -3⟩,
     ⟨⟨"a", "cat text", [], [5]⟩, -5⟩] (by rfl)
  exact h.2.1 (by decide)

/-- Claim C5: a `search` with `topK = N` returns at most `N` results; `topK`
must be a positive integer (a non-positive value is a `ValidationError`) and
defaults to 5 when omitted; a search with no matching documents returns the
empty sequence as a success, not an error. -/
theorem search_topK_bound_default_empty (embed : String → List Int)
    (rawScore : List Int → List Int → Int) (metric : Metric) (coll : Collection)
    (q : Query) (filter : Meta) :
    (∀ (N : Int) (rs : List SearchResult),
      search embed rawScore metric coll q (some N) filter = Except.ok rs →
        rs.length ≤ N.toNat) ∧
    search embed rawScore metric coll q none filter =
      search embed rawScore metric coll q (some 5) filter ∧
    (∀ N : Int, N ≤ 0 →
      search embed rawScore metric coll q (some N) filter =
        Except.error StoreError.validationError) ∧
    (∀ N : Int, 0 < N →
      coll.filter (fun d => matchesFilter filter d.metadata) = [] →
        search embed rawScore metric coll q (some N) filter = Except.ok []) := by
  refine ⟨?_, rfl, ?_, ?_⟩
  · intro N rs hok
    by_cases hN : N ≤ 0
    · simp only [search] at hok
      rw [if_pos (show (some N).getD 5 ≤ 0 from hN)] at hok
      exact Except.noConfusion hok
    · rw [search_eq_of_pos embed rawScore metric coll q (some N) filter
        (by simp; omega)] at hok
      have hrs := (Except.ok.inj hok).symm
      subst hrs
      exact List.length_take_le _ _
  · intro N hN
    simp only [search]
    rw [if_pos (show (some N).getD 5 ≤ 0 from hN)]
  · intro N hN hempty
    rw [search_eq_of_pos embed rawScore metric coll q (some N) filter (by simp; omega)]
    rw [hempty]
    simp [List.insertionSort]

theorem search_topK_bound_default_empty_witness :
    search (fun _ => []) (fun _ v => v.headD 0) Metric.similarity
      [⟨"a", "cat text", [], [1]⟩] (Query.vector []) (some (-1)) [] =
      Except.error StoreError.validationError ∧
    search (fun _ => []) (fun _ v => v.headD 0) Metric.similarity
      [⟨"a", "cat text", [("x", "y")], [1]⟩] (Query.vector []) (some 2)
      [("no", "match")] = Except.ok [] := by
  have h1 := search_topK_bound_default_empty (fun _ => []) (fun _ v => v.headD 0)
    Metric.similarity [⟨"a", "cat text", [], [1]⟩] (Query.vector []) []
  have h2 := search_topK_bound_default_empty (fun _ => []) (fun _ v => v.headD 0)
    Metric.similarity [⟨"a", "cat text", [("x", "y")], [1]⟩] (Query.vector [])
    [("no", "match")]
  exact ⟨h1.2.2.1 (-1) (by decide), h2.2.2.2 2 (by decide) (by decide)⟩

/-- Claim C6: every document returned by a `search` with a metadata filter
satisfies all of the filter's key/value equality conditions — no non-matching
document is ever returned. -/
theorem search_filter_sound (embed : String → List Int)
    (rawScore : List Int → List Int → Int) (metric : Metric) (coll : Collection)
    (q : Query) (topK : Option Int) (filter : Meta) (rs : List SearchResult)
    (hok : search embed rawScore metric coll q topK filter = Except.ok rs) :
    ∀ r ∈ rs, matchesFilter filter r.document.metadata = true := by
  by_cases hk : topK.getD 5 ≤ 0
  · simp only [search] at hok
    rw [if_pos hk] at hok
    exact Except.noConfusion hok
  · rw [search_eq_of_pos embed rawScore metric coll q topK filter (by omega)] at hok
    have hrs := (Except.ok.inj hok).symm
    subst hrs
    intro r hr
    have hr1 := List.take_subset _ _ hr
    have hr2 := (List.perm_insertionSort resOrder _).subset hr1
    rcases List.mem_map.mp hr2 with ⟨d, hd, rfl⟩
    exact (List.mem_filter.mp hd).2

theorem search_filter_sound_witness :
    matchesFilter [("category", "animal")]
      (SearchResult.mk ⟨"a", "cat text", [("category", "animal")], [1]⟩ 1).document.metadata
      = true := by
  have h := search_filter_sound (fun _ => []) (fun _ v => v.headD 0) Metric.similarity
    [⟨"a", "cat text", [("category", "animal")], [1]⟩,
     ⟨"b", "fern text", [("category", "plant")], [2]⟩]
    (Query.vector []) none [("category", "animal")]
    [⟨⟨"a", "cat text", [("category", "animal")], [1]⟩, 1⟩] (by rfl)
  exact h ⟨⟨"a", "cat text", [("category", "animal")], [1]⟩, 1⟩ (by decide)

/-- Claim C3: a `chunkFileToCollection` call whose options violate
`0 ≤ chunkOverlap < chunkSize` fails with `ValidationError` before any fetch
of the url is attempted, and the collection is left unchanged (no document is
added). -/
theorem chunkFileToCollection_invalid_params (embed : String → List Int)
    (genId : Nat → String) (fetchParse : String → Except String String)
    (ty url : String) (opts : ChunkOptions) (coll : Collection)
    (h : ¬ (0 ≤ opts.chunkOverlap ∧ opts.chunkOverlap < opts.chunkSize)) :
    (chunkFileToCollection embed genId fetchParse ty url opts coll).result =
      Except.error StoreError.validationError ∧
    (chunkFileToCollection embed genId fetchParse ty url opts coll).fetchAttempted =
      false ∧
    (chunkFileToCollection embed genId fetchParse ty url opts coll).finalColl =
      coll := by
  have hcond : (!(decide (0 ≤ opts.chunkOverlap) &&
      decide (opts.chunkOverlap < opts.chunkSize))) = true := by
    rcases Decidable.not_and_iff_or_not.mp h with hlt | hlt <;> simp [hlt]
  have heq : chunkFileToCollection embed genId fetchParse ty url opts coll =
      ⟨Except.error StoreError.validationError, false, coll⟩ := by
    unfold chunkFileToCollection
    rw [if_pos hcond]
  rw [heq]
  exact ⟨rfl, rfl, rfl⟩

theorem chunkFileToCollection_invalid_params_witness :
    (chunkFileToCollection (fun s => [(s.length : Int)]) (fun n => toString n)
      (fun _ => Except.ok "some fetched file text") "pdf"
      "https://example.com/document.pdf" ⟨500, 600, []⟩ []).result =
      Except.error StoreError.validationError ∧
    (chunkFileToCollection (fun s => [(s.length : Int)]) (fun n => toString n)
      (fun _ => Except.ok "some fetched file text") "pdf"
      "https://example.com/document.pdf" ⟨500, 600, []⟩ []).fetchAttempted = false ∧
    (chunkFileToCollection (fun s => [(s.length : Int)]) (fun n => toString n)
      (fun _ => Except.ok "some fetched file text") "pdf"
      "https://example.com/document.pdf" ⟨500, 600, []⟩ []).finalColl = [] :=
  chunkFileToCollection_invalid_params (fun s => [(s.length : Int)])
    (fun n => toString n) (fun _ => Except.ok "some fetched file text") "pdf"
    "https://example.com/document.pdf" ⟨500, 600, []⟩ [] (by decide)

/-- Claim C10: `HomepageFeatures` takes no props and is deterministic, and
every render produces exactly one `Feature` block per entry of the constant
`FeatureList` — three blocks titled in declaration order, each rendering the
entry's title and description (and Svg asset). -/
theorem homepageFeatures_renders_feature_list :
    (∀ u v : Unit, HomepageFeatures u = HomepageFeatures v) ∧
    (HomepageFeatures ()).length = FeatureList.length ∧
    (HomepageFeatures ()).length = 3 ∧
    (HomepageFeatures ()).map FeatureBlock.title =
      ["Advanced Document Intelligence", "Seamless Agent Integration",
       "Developer-First Experience"] ∧
    (HomepageFeatures ()).map FeatureBlock.title = FeatureList.map FeatureItem.title ∧
    (HomepageFeatures ()).map FeatureBlock.description =
      FeatureList.map FeatureItem.description ∧
    (HomepageFeatures ()).map FeatureBlock.svg = FeatureList.map FeatureItem.svg :=
  ⟨fun _ _ => rfl, rfl, rfl, rfl, rfl, rfl, rfl⟩

end NestboxDocs
